import Mathlib

/-!
Shallow embedding of the Content-based-Filtering-Program repository
(src/Assignment_2: ADT_tree.py, ADT_graph.py, recommend_new.py).

Modelling conventions:
* Python dicts are insertion-ordered association lists `List (String × β)`;
  `dget`/`dset` mirror `d[k]`/`d.get(k, default)`/`d[k] = v` (an update of an
  existing key keeps its position, a new key is appended).
* Python floats are modelled as rationals `ℚ`; the transcendental `math.log`
  is abstracted as an explicit parameter `lg : ℚ → ℚ` of the pipeline, so
  every theorem quantifies over the logarithm used.
* The `Tree` class of ADT_tree.py is the mutual inductive `PTree`/`PForest`
  (`_root : Optional[Any]`, `_subtrees : list[Tree]`); this keeps every
  method a structural recursion.
* `_Vertex` objects are canonical per item inside a `GameGraph` (the class
  keys `_vertices` by item and edges reference those objects), so a vertex
  is identified by its item string: a graph is an assoc list
  item ↦ (kind, neighbours), and a neighbour is referenced by its item.
-/

/-- `d.get(k)` on an insertion-ordered dict modelled as an assoc list. -/
def dget {β : Type} (k : String) : List (String × β) → Option β
  | [] => none
  | p :: rest => if p.1 = k then some p.2 else dget k rest

/-- `d.get(k, default)`. -/
def dgetD {β : Type} (k : String) (d : β) (l : List (String × β)) : β :=
  (dget k l).getD d

/-- `d[k] = v`: updating an existing key keeps its position, a new key is
appended at the end (Python dict insertion order). -/
def dset {β : Type} (k : String) (v : β) : List (String × β) → List (String × β)
  | [] => [(k, v)]
  | p :: rest => if p.1 = k then (k, v) :: rest else p :: dset k v rest

theorem dget_dset_self {β : Type} (k : String) (v : β) (l : List (String × β)) :
    dget k (dset k v l) = some v := by
  induction l with
  | nil => simp [dget, dset]
  | cons p rest ih =>
    by_cases h : p.1 = k
    · simp [dget, dset, h]
    · simp [dget, dset, h, ih]

theorem dget_dset_ne {β : Type} {k k' : String} (h : k' ≠ k) (v : β)
    (l : List (String × β)) : dget k' (dset k v l) = dget k' l := by
  have hkk : ¬ k = k' := fun hh => h hh.symm
  induction l with
  | nil => simp [dget, dset, hkk]
  | cons p rest ih =>
    by_cases hp : p.1 = k
    · have hp' : ¬ p.1 = k' := by rw [hp]; exact hkk
      simp [dget, dset, hp, hkk, hp']
    · by_cases hp' : p.1 = k'
      · simp [dget, dset, hp, hp', h]
      · simp [dget, dset, hp, hp', ih]

mutual
/-- The tree of ADT_tree.py: `_root : Optional[Any]`, `_subtrees : list[Tree]`. -/
inductive PTree : Type where
  | node : Option String → PForest → PTree

/-- A `list[Tree]` of subtrees, as a mutual inductive to keep recursion structural. -/
inductive PForest : Type where
  | nil : PForest
  | cons : PTree → PForest → PForest
end

/-- `Tree.is_empty`: `self._root is None`. -/
def PTree.is_empty : PTree → Bool
  | .node none _ => true
  | .node (some _) _ => false

mutual
/-- `Tree.__contains__`: empty → False; root equal → True; else any subtree. -/
def PTree.containsItem : PTree → String → Bool
  | .node none _, _ => false
  | .node (some r) subs, item => r == item || PForest.anyContains subs item

/-- The `for subtree in self._subtrees` loop of `__contains__`. -/
def PForest.anyContains : PForest → String → Bool
  | .nil, _ => false
  | .cons t ts, item => PTree.containsItem t item || PForest.anyContains ts item
end

/-- The root of a subtree as appended by `get_genres` (`genres.append(subtree._root)`);
a `None` root contributes nothing because `game in subtree` is `False` there. -/
def PTree.rootList : PTree → List String
  | .node none _ => []
  | .node (some r) _ => [r]

/-- The `for subtree in self._subtrees: if game in subtree` loop of `get_genres`. -/
def PForest.genresIn : PForest → String → List String
  | .nil, _ => []
  | .cons t ts, game =>
    (if PTree.containsItem t game then PTree.rootList t else []) ++ PForest.genresIn ts game

/-- `Tree.get_genres`: every top-level subtree whose membership test accepts `game`. -/
def PTree.get_genres : PTree → String → List String
  | .node none _, _ => []
  | .node (some _) subs, game => PForest.genresIn subs game

mutual
/-- `Tree.get_all_game_names`: empty → `[]`; no subtrees → `[root]`; else concat. -/
def PTree.get_all_game_names : PTree → List String
  | .node none _ => []
  | .node (some r) .nil => [r]
  | .node (some _) (.cons t ts) => PForest.allNames (.cons t ts)

/-- The `for subtree in self._subtrees: names.extend(...)` loop. -/
def PForest.allNames : PForest → List String
  | .nil => []
  | .cons t ts => PTree.get_all_game_names t ++ PForest.allNames ts
end

/-- The body of the first call of `get_precomputed_genre_map`:
`for game in self.get_all_game_names(): map[game] = set(self.get_genres(game))`
(a Python set is modelled by the list of its elements). -/
def computeGenreMap (t : PTree) : List (String × List String) :=
  (t.get_all_game_names).foldl (fun m g => dset g (t.get_genres g) m) []

/-- `Tree.get_precomputed_genre_map` with its module-level `global
_precomputed_genre_map` cache made explicit: the cache state is threaded in and
out. On a `none` cache the map is computed from `self`; on a `some` cache the
cached map is returned whatever tree the method is called on. -/
def get_precomputed_genre_map (cache : Option (List (String × List String)))
    (t : PTree) : List (String × List String) × Option (List (String × List String)) :=
  match cache with
  | some m => (m, some m)
  | none => (computeGenreMap t, some (computeGenreMap t))

/-- A `_Vertex` of ADT_graph.py minus its `item` field (the item is the key it
is stored under in the graph); `neighbours` is the dict neighbour-item ↦ weight. -/
structure Vtx where
  kind : String
  neighbours : List (String × ℚ)
deriving DecidableEq

/-- `GameGraph._vertices`: the dict item ↦ vertex. -/
abbrev Graph : Type := List (String × Vtx)

/-- `self._vertices[a].kind`, when `a` is present. -/
def kindOf (G : Graph) (a : String) : Option String :=
  (dget a G).map Vtx.kind

/-- The neighbours dict of the vertex stored under `a` (empty if absent). -/
def adjOf (G : Graph) (a : String) : List (String × ℚ) :=
  match dget a G with
  | none => []
  | some v => v.neighbours

/-- The weight recorded by vertex `a` for neighbour `b`. -/
def edgeWeight (G : Graph) (a b : String) : Option ℚ :=
  match dget a G with
  | none => none
  | some v => dget b v.neighbours

/-- `GameGraph.add_vertex`: insert a fresh vertex with no neighbours, only if
the item is not already present. -/
def add_vertex (G : Graph) (item kind : String) : Graph :=
  if (dget item G).isSome then G else G ++ [(item, ⟨kind, []⟩)]

/-- `_Vertex.add_neighbour`: `self.neighbours[neighbour] = weight`. -/
def vtxAddNeighbour (v : Vtx) (n : String) (w : ℚ) : Vtx :=
  { v with neighbours := dset n w v.neighbours }

/-- Apply `f` to the vertex stored under `item` (mutation of that object). -/
def updateVtx (G : Graph) (item : String) (f : Vtx → Vtx) : Graph :=
  G.map (fun p => if p.1 = item then (p.1, f p.2) else p)

/-- `GameGraph.add_user_game_edge`: if both items are present, record the
weight in both vertices' neighbour dicts (`v1.add_neighbour(v2, weight)` then
`v2.add_neighbour(v1, weight)`); otherwise do nothing. No check of kinds. -/
def add_user_game_edge (G : Graph) (i1 i2 : String) (w : ℚ) : Graph :=
  if (dget i1 G).isSome && (dget i2 G).isSome then
    updateVtx (updateVtx G i1 (fun v => vtxAddNeighbour v i2 w)) i2
      (fun v => vtxAddNeighbour v i1 w)
  else G

/-- A mutating call on a `GameGraph`. -/
inductive GOp where
  | addV (item kind : String)
  | addE (i1 i2 : String) (w : ℚ)

/-- Run one graph call. -/
def applyOp (G : Graph) : GOp → Graph
  | .addV i k => add_vertex G i k
  | .addE i1 i2 w => add_user_game_edge G i1 i2 w

/-- Run a sequence of graph calls. -/
def applyOps (G : Graph) (ops : List GOp) : Graph :=
  ops.foldl applyOp G

/-- The empty `GameGraph()`. -/
def emptyGameGraph : Graph := []

/-- Edges are symmetric: both directions record the same weight (or neither). -/
def Symm (G : Graph) : Prop :=
  ∀ a b, edgeWeight G a b = edgeWeight G b a

/-- Every recorded neighbour is itself a vertex of the graph. -/
def Closed (G : Graph) : Prop :=
  ∀ a v, dget a G = some v → ∀ b, (dget b v.neighbours).isSome → (dget b G).isSome

/-- Every edge joins two vertices of differing kind. -/
def Bipartite (G : Graph) : Prop :=
  ∀ a b, (edgeWeight G a b).isSome → kindOf G a ≠ kindOf G b

/-- One call is kind-safe when, if it is an effective edge insertion, the two
endpoints currently have different kinds. -/
def opKindSafe (G : Graph) : GOp → Bool
  | .addV _ _ => true
  | .addE i1 i2 _ =>
    !((dget i1 G).isSome && (dget i2 G).isSome) || !(kindOf G i1 == kindOf G i2)

/-- Every call of the sequence is kind-safe at the state it runs in. -/
def opsKindSafe : Graph → List GOp → Bool
  | _, [] => true
  | G, op :: rest => opKindSafe G op && opsKindSafe (applyOp G op) rest

/-- `calculate_weight` of ADT_graph.py (the weight model). The VADER sentiment
analyzer is external to the repository, so the branch
`if review and analyzer: sentiment_score = analyzer.polarity_scores(review)['compound']`
is modelled by an optional precomputed compound score `sentiment` (`none` when
`review`/`analyzer` is falsy, `some s` for the analyzer's score otherwise). -/
def calculate_weight (playtime mean std : ℚ) (recommend : Option Bool)
    (sentiment : Option ℚ) : ℚ :=
  let z_score : ℚ := if std = 0 then 0 else (playtime - mean) / std
  let playtime_score := (1 / 2 : ℚ) * z_score
  let recommend_score : ℚ :=
    match recommend with
    | some true => 2
    | some false => -(1 / 2 : ℚ)
    | none => 0
  let sentiment_score : ℚ :=
    match sentiment with
    | some s => s
    | none => 0
  max (playtime_score + recommend_score + sentiment_score) 0

/-- `bool(set(l1).intersection(set(l2)))`: the two lists share an element. -/
def intersects (l1 l2 : List String) : Bool :=
  l1.any (fun x => l2.contains x)

/-- `users = [v for v in game_vertex.neighbours if v.kind == 'user']`. -/
def usersOf (G : Graph) (liked : String) : List String :=
  ((adjOf G liked).map Prod.fst).filter (fun i => kindOf G i == some "user")

/-- The per-candidate tests of the loop body of `filter_similar_genre_games`:
`other_game.kind != 'game' or other_game.item == liked_game` skips, and so does
an empty genre intersection with `precomputed_genre_map.get(other_game.item, set())`. -/
def candOK (G : Graph) (liked : String) (tmap : List (String × List String))
    (likedGenres : List String) (g : String) : Bool :=
  kindOf G g == some "game" && !(g == liked) && intersects likedGenres (dgetD g [] tmap)

/-- One neighbour `(other_game, weight)` of the inner loop of
`filter_similar_genre_games`, updating `(score_map, game_user_count)`. -/
def accStep (G : Graph) (liked : String) (tmap : List (String × List String))
    (likedGenres : List String) (acc : List (String × ℚ) × List (String × Nat))
    (gw : String × ℚ) : List (String × ℚ) × List (String × Nat) :=
  if candOK G liked tmap likedGenres gw.1 then
    (dset gw.1 (dgetD gw.1 0 acc.1 + gw.2) acc.1,
     dset gw.1 (dgetD gw.1 0 acc.2 + 1) acc.2)
  else acc

/-- One user of the outer loop of `filter_similar_genre_games`. -/
def accUser (G : Graph) (liked : String) (tmap : List (String × List String))
    (likedGenres : List String) (acc : List (String × ℚ) × List (String × Nat))
    (u : String) : List (String × ℚ) × List (String × Nat) :=
  (adjOf G u).foldl (accStep G liked tmap likedGenres) acc

/-- `filter_similar_genre_games` of recommend_new.py, at a fresh process cache:
`get_precomputed_genre_map` computes the map from `genre_tree`, the liked game's
genres come through `genre_cache` from `get_game_genres` (i.e. `get_genres`),
and the full precomputed map is the third component of the result. The graph is
passed to resolve the neighbour vertices referenced by the `users`. -/
def filter_similar_genre_games (liked : String) (users : List String) (G : Graph)
    (tree : PTree) :
    (List (String × ℚ) × List (String × Nat)) × List (String × List String) :=
  let tmap := computeGenreMap tree
  let likedGenres := tree.get_genres liked
  (users.foldl (accUser G liked tmap likedGenres) ([], []), tmap)

/-- Stable insertion of a scored game into a descending list: placed before the
first entry of not-greater score, so equal scores keep their original order
(the result of Python's stable `sorted(..., reverse=True)`). -/
def insertDesc (x : String × ℚ) : List (String × ℚ) → List (String × ℚ)
  | [] => [x]
  | y :: ys => if y.2 ≤ x.2 then x :: y :: ys else y :: insertDesc x ys

/-- Stable descending sort by score:
`sorted(score_map.items(), key=lambda x: x[1], reverse=True)`. -/
def sortDesc : List (String × ℚ) → List (String × ℚ)
  | [] => []
  | x :: xs => insertDesc x (sortDesc xs)

/-- Python slicing `l[:k]`: a nonnegative `k` takes the first `k` elements, a
negative `k` drops the last `|k|` elements. -/
def pyTake {α : Type} (k : Int) (l : List α) : List α :=
  if 0 ≤ k then l.take k.toNat else l.take (l.length - (-k).toNat)

/-- `normalize_and_rank_scores` of recommend_new.py:
`score_map[game] /= log(1 + game_user_count[game]); score_map[game] *= boost_factor`,
then sort descending and slice `[:top_k]`. The float `log` is the parameter `lg`. -/
def normalize_and_rank_scores (lg : ℚ → ℚ) (score_map : List (String × ℚ))
    (game_user_count : List (String × Nat)) (boost_factor : ℚ) (top_k : Int) :
    List String × List (String × ℚ) :=
  let sm := score_map.map
    (fun p => (p.1, p.2 / lg (1 + (dgetD p.1 0 game_user_count : Nat)) * boost_factor))
  let sorted_games := sortDesc sm
  ((pyTake top_k sorted_games).map Prod.fst, sm)

/-- `genre_aware_recommend` of recommend_new.py (at a fresh process cache, see
`filter_similar_genre_games`). The final dict comprehension turning genre sets
into lists is the identity here since a set is already modelled by a list. -/
def genre_aware_recommend (lg : ℚ → ℚ) (liked_game : String) (top_k : Int)
    (genre_tree : Option PTree) (graph_vertices : Option Graph) (boost_factor : ℚ) :
    Except String (List String × List (String × ℚ) × List (String × List String)) :=
  match genre_tree, graph_vertices with
  | none, _ => .error "genre_tree and graph_vertices must be provided."
  | some _, none => .error "genre_tree and graph_vertices must be provided."
  | some tree, some G =>
    if !(kindOf G liked_game == some "game") then .ok ([], [], [])
    else if (tree.get_genres liked_game).isEmpty then .ok ([], [], [])
    else
      let users := usersOf G liked_game
      let fr := filter_similar_genre_games liked_game users G tree
      let tr := normalize_and_rank_scores lg fr.1.1 fr.1.2 boost_factor top_k
      .ok (tr.1, tr.2, fr.2)

/-- The candidate test of `GameGraph.recommend_games` (ADT_graph.py):
`other_game.kind == 'game' and other_game.item != liked_game` — no genre gate. -/
def candOKNoGate (G : Graph) (liked g : String) : Bool :=
  kindOf G g == some "game" && !(g == liked)

/-- One neighbour of the inner loop of `GameGraph.recommend_games`. -/
def accStepNoGate (G : Graph) (liked : String)
    (acc : List (String × ℚ) × List (String × Nat)) (gw : String × ℚ) :
    List (String × ℚ) × List (String × Nat) :=
  if candOKNoGate G liked gw.1 then
    (dset gw.1 (dgetD gw.1 0 acc.1 + gw.2) acc.1,
     dset gw.1 (dgetD gw.1 0 acc.2 + 1) acc.2)
  else acc

/-- One user of the outer loop of `GameGraph.recommend_games`. -/
def accUserNoGate (G : Graph) (liked : String)
    (acc : List (String × ℚ) × List (String × Nat)) (u : String) :
    List (String × ℚ) × List (String × Nat) :=
  (adjOf G u).foldl (accStepNoGate G liked) acc

/-- `GameGraph.recommend_games` of ADT_graph.py: the tree-free recommender —
accumulate weights and user counts over the liked game's users, divide by
`log(1 + count)` (no boost), sort descending, slice `[:top_k]`. -/
def recommend_games (lg : ℚ → ℚ) (G : Graph) (liked_game : String) (top_k : Int) :
    List String :=
  if !(kindOf G liked_game == some "game") then []
  else
    let users := usersOf G liked_game
    let acc := users.foldl (accUserNoGate G liked_game) ([], [])
    let sm := acc.1.map (fun p => (p.1, p.2 / lg (1 + (dgetD p.1 0 acc.2 : Nat))))
    ((pyTake top_k (sortDesc sm)).map Prod.fst)

/-- The ranked list of a successful `genre_aware_recommend` call. -/
def rankedOf (r : Except String (List String × List (String × ℚ) × List (String × List String))) :
    List String :=
  match r with
  | .ok t => t.1
  | .error _ => []

mutual
/-- Modelled from the spec: the item "appears as a leaf (a node with no
children)" somewhere in the tree. Spec-side comparison predicate for the
`categoriesOf` claim; not a method of the source. -/
def PTree.appearsAsLeaf : PTree → String → Bool
  | .node r .nil, x => r == some x
  | .node _ (.cons t ts), x => PForest.anyLeaf (.cons t ts) x

/-- Any subtree of the forest has `x` as a leaf. -/
def PForest.anyLeaf : PForest → String → Bool
  | .nil, _ => false
  | .cons t ts, x => PTree.appearsAsLeaf t x || PForest.anyLeaf ts x
end

mutual
/-- Spec-side predicate: the item occurs as the label of some node of the tree
(root, internal node or leaf). -/
def PTree.appearsAsNode : PTree → String → Bool
  | .node r subs, x => r == some x || PForest.anyNode subs x

/-- Any subtree of the forest has `x` as a node label. -/
def PForest.anyNode : PForest → String → Bool
  | .nil, _ => false
  | .cons t ts, x => PTree.appearsAsNode t x || PForest.anyNode ts x
end

mutual
/-- The representation invariants of the `Tree` class:
`self._root is not None or self._subtrees == []` and
`all(not subtree.is_empty() for subtree in self._subtrees)` (recursively). -/
def PTree.WF : PTree → Bool
  | .node none subs =>
    match subs with
    | .nil => true
    | .cons _ _ => false
  | .node (some _) subs => PForest.WFAll subs

/-- All subtrees of the forest are nonempty and well-formed. -/
def PForest.WFAll : PForest → Bool
  | .nil => true
  | .cons t ts => !(t.is_empty) && PTree.WF t && PForest.WFAll ts
end

/-- Spec-side collection: the labels of the top-level subtrees in which `x`
occurs as a node label (compare `PForest.genresIn`, which tests membership via
`__contains__`). -/
def PForest.labelsNode : PForest → String → List String
  | .nil, _ => []
  | .cons t ts, x =>
    (if t.appearsAsNode x then t.rootList else []) ++ PForest.labelsNode ts x

/-- Spec-side formula: the raw score of candidate `g` — the sum, over the liked
game's neighbour users, of the user→candidate edge weight (0 for a user without
that edge). -/
def rawScoreOf (G : Graph) (liked g : String) : ℚ :=
  ((usersOf G liked).map (fun u => dgetD g 0 (adjOf G u))).sum

/-- Spec-side formula: the support count of candidate `g` — how many of the
liked game's neighbour users have an edge to `g`. -/
def supportOf (G : Graph) (liked g : String) : Nat :=
  ((usersOf G liked).filter (fun u => (dget g (adjOf G u)).isSome)).length

/-- A small concrete genre tree: category "Act" with games "Alpha", "Beta". -/
def exT : PTree :=
  .node (some "All Games")
    (.cons (.node (some "Act")
      (.cons (.node (some "Alpha") .nil) (.cons (.node (some "Beta") .nil) .nil))) .nil)

/-- A small concrete graph: user "U1" played "Alpha" (weight 2) and "Beta"
(weight 3). -/
def exG : Graph :=
  [("Alpha", ⟨"game", [("U1", 2)]⟩),
   ("U1", ⟨"user", [("Alpha", 2), ("Beta", 3)]⟩),
   ("Beta", ⟨"game", [("U1", 3)]⟩)]

/-- A graph in which "Alpha" is present but isolated. -/
def exGiso : Graph := [("Alpha", ⟨"game", []⟩)]

/-- The top-level forest of `exT`. -/
def exF : PForest :=
  .cons (.node (some "Act")
    (.cons (.node (some "Alpha") .nil) (.cons (.node (some "Beta") .nil) .nil))) .nil

/-- First tree instance for the cache scenario: game "g1" in category "A". -/
def t1C : PTree :=
  .node (some "All Games") (.cons (.node (some "A") (.cons (.node (some "g1") .nil) .nil)) .nil)

/-- Second tree instance for the cache scenario: game "g2" in category "B". -/
def t2C : PTree :=
  .node (some "All Games") (.cons (.node (some "B") (.cons (.node (some "g2") .nil) .nil)) .nil)

/-- The "Action" category subtree containing internal node "Sub" with leaf "g". -/
def c9Action : PTree :=
  .node (some "Action") (.cons (.node (some "Sub") (.cons (.node (some "g") .nil) .nil)) .nil)

/-- A genre tree whose "Action" category has an internal node "Sub". -/
def c9T : PTree := .node (some "All") (.cons c9Action .nil)

/-- C4: `calculate_weight` returns a value ≥ 0 for every input combination
(including `std = 0`, `recommend = False` and a most-negative sentiment score);
when `std = 0` the z-score term is 0, so the playtime and mean inputs cannot
influence the result (no division error); and at `playtime=0, recommend=None,
review=None, mean=0, std=0` the weight is exactly 0. -/
theorem claim_C4 :
    (∀ (p m s : ℚ) (r : Option Bool) (sent : Option ℚ),
      0 ≤ calculate_weight p m s r sent) ∧
    (∀ (p p' m m' : ℚ) (r : Option Bool) (sent : Option ℚ),
      calculate_weight p m 0 r sent = calculate_weight p' m' 0 r sent) ∧
    calculate_weight 0 0 0 none none = 0 := by
  refine ⟨fun p m s r sent => ?_, fun p p' m m' r sent => ?_, ?_⟩
  · exact le_max_right _ 0
  · simp [calculate_weight]
  · simp [calculate_weight]

/-- C3 counterexample: the cache behind `get_precomputed_genre_map` is a
module-level global, not instance state — after tree `t1C` fills it, a distinct
tree `t2C` receives `t1C`'s index, not the index derived from its own
contents. -/
theorem claim_C3_counterexample :
    (get_precomputed_genre_map (get_precomputed_genre_map none t1C).2 t2C).1 ≠
      computeGenreMap t2C ∧
    (get_precomputed_genre_map (get_precomputed_genre_map none t1C).2 t2C).1 =
      computeGenreMap t1C := by
  decide

/-- C3 amended: on a cold cache, `get_precomputed_genre_map` returns exactly
the mapping obtained by iterating `get_all_game_names` of the tree it is called
on and computing `get_genres` for each; but the cache is global to the process,
so every later call — from any tree instance — returns the first computed map
unchanged. -/
theorem claim_C3_amended :
    (∀ t : PTree, (get_precomputed_genre_map none t).1 =
      (t.get_all_game_names).foldl (fun m g => dset g (t.get_genres g) m) []) ∧
    (∀ (m : List (String × List String)) (t : PTree),
      get_precomputed_genre_map (some m) t = (m, some m)) :=
  ⟨fun _ => rfl, fun _ _ => rfl⟩

/-- C9 counterexample: `get_genres` reports category "Action" for the name
"Sub", although "Sub" occurs only as an internal node of the (well-formed)
"Action" subtree, never as a leaf — membership is tested with `__contains__`,
which also matches internal node labels. -/
theorem claim_C9_counterexample :
    PTree.get_genres c9T "Sub" = ["Action"] ∧
    PTree.appearsAsLeaf c9Action "Sub" = false ∧
    PForest.WFAll (.cons c9Action .nil) = true := by
  decide

mutual
/-- For a tree respecting the representation invariants, `__contains__` accepts
exactly the names occurring as the label of some node. -/
theorem containsItem_eq_appearsAsNode : ∀ (t : PTree), t.WF = true → ∀ x,
    t.containsItem x = t.appearsAsNode x
  | .node none subs, hw, x => by
    match subs, hw with
    | .nil, _ => simp [PTree.containsItem, PTree.appearsAsNode, PForest.anyNode]
  | .node (some r) subs, hw, x => by
    have hsub : PForest.WFAll subs = true := hw
    simp only [PTree.containsItem, PTree.appearsAsNode,
      anyContains_eq_anyNode subs hsub x, Option.some_beq_some]

/-- Forest version of `containsItem_eq_appearsAsNode`. -/
theorem anyContains_eq_anyNode : ∀ (f : PForest), PForest.WFAll f = true → ∀ x,
    PForest.anyContains f x = PForest.anyNode f x
  | .nil, _, x => rfl
  | .cons t ts, hw, x => by
    have h1 : t.WF = true := by
      have hh := hw
      simp [PForest.WFAll, Bool.and_eq_true] at hh
      exact hh.1.2
    have h2 : PForest.WFAll ts = true := by
      have hh := hw
      simp [PForest.WFAll, Bool.and_eq_true] at hh
      exact hh.2
    simp only [PForest.anyContains, PForest.anyNode,
      containsItem_eq_appearsAsNode t h1 x, anyContains_eq_anyNode ts h2 x]
end

/-- On a well-formed forest, the `get_genres` scan collects exactly the labels
of the subtrees in which the item occurs as a node label. -/
theorem genresIn_eq_labelsNode : ∀ (f : PForest), PForest.WFAll f = true → ∀ x,
    PForest.genresIn f x = PForest.labelsNode f x
  | .nil, _, x => rfl
  | .cons t ts, hw, x => by
    have h1 : t.WF = true := by
      have hh := hw
      simp [PForest.WFAll, Bool.and_eq_true] at hh
      exact hh.1.2
    have h2 : PForest.WFAll ts = true := by
      have hh := hw
      simp [PForest.WFAll, Bool.and_eq_true] at hh
      exact hh.2
    simp only [PForest.genresIn, PForest.labelsNode,
      containsItem_eq_appearsAsNode t h1 x, genresIn_eq_labelsNode ts h2 x]

/-- C9 amended: for every tree respecting the representation invariants and
every item name, `get_genres` returns the labels of exactly those top-level
subtrees in which the item occurs as the label of ANY node (the subtree's own
label, an internal node, or a leaf) — not only of those where it is a leaf. -/
theorem claim_C9_amended : ∀ (r : String) (subs : PForest) (x : String),
    PForest.WFAll subs = true →
    PTree.get_genres (.node (some r) subs) x = PForest.labelsNode subs x := by
  intro r subs x hw
  simpa [PTree.get_genres] using genresIn_eq_labelsNode subs hw x

/-- C9 amended, witness at a concrete well-formed tree and item. -/
theorem claim_C9_amended_witness :
    PTree.get_genres (.node (some "All Games") exF) "Alpha" =
      PForest.labelsNode exF "Alpha" :=
  claim_C9_amended "All Games" exF "Alpha" (by decide)

/-- Inserting into the sorted list is a permutation of consing. -/
theorem insertDesc_perm (x : String × ℚ) (l : List (String × ℚ)) :
    (insertDesc x l).Perm (x :: l) := by
  induction l with
  | nil => simp [insertDesc]
  | cons y ys ih =>
    by_cases h : y.2 ≤ x.2
    · simp [insertDesc, h]
    · simp only [insertDesc, if_neg h]
      exact (ih.cons y).trans (List.Perm.swap x y ys)

/-- The stable descending sort permutes its input. -/
theorem sortDesc_perm (l : List (String × ℚ)) : (sortDesc l).Perm l := by
  induction l with
  | nil => simp [sortDesc]
  | cons x xs ih =>
    exact (insertDesc_perm x (sortDesc xs)).trans (ih.cons x)

/-- Membership in an insertion. -/
theorem mem_insertDesc {z x : String × ℚ} {l : List (String × ℚ)} :
    z ∈ insertDesc x l ↔ z = x ∨ z ∈ l :=
  ⟨fun h => by simpa using (insertDesc_perm x l).mem_iff.mp h,
   fun h => (insertDesc_perm x l).mem_iff.mpr (by simpa using h)⟩

/-- Insertion preserves the descending order. -/
theorem insertDesc_sorted (x : String × ℚ) (l : List (String × ℚ))
    (h : l.Pairwise (fun a b => b.2 ≤ a.2)) :
    (insertDesc x l).Pairwise (fun a b => b.2 ≤ a.2) := by
  induction l with
  | nil => simp [insertDesc]
  | cons y ys ih =>
    rcases List.pairwise_cons.mp h with ⟨hy, hys⟩
    by_cases hle : y.2 ≤ x.2
    · simp only [insertDesc, if_pos hle]
      refine List.pairwise_cons.mpr ⟨?_, h⟩
      intro z hz
      rcases List.mem_cons.mp hz with rfl | hz
      · exact hle
      · exact le_trans (hy z hz) hle
    · simp only [insertDesc, if_neg hle]
      refine List.pairwise_cons.mpr ⟨?_, ih hys⟩
      intro z hz
      rcases mem_insertDesc.mp hz with rfl | hz
      · exact le_of_lt (lt_of_not_le hle)
      · exact hy z hz

/-- The stable descending sort is sorted by non-increasing score. -/
theorem sortDesc_sorted (l : List (String × ℚ)) :
    (sortDesc l).Pairwise (fun a b => b.2 ≤ a.2) := by
  induction l with
  | nil => simp [sortDesc]
  | cons x xs ih => exact insertDesc_sorted x (sortDesc xs) ih

/-- Python slicing `l[:k]` always yields a sublist (in fact a prefix). -/
theorem pyTake_sublist {α : Type} (k : Int) (l : List α) : (pyTake k l).Sublist l := by
  unfold pyTake
  split
  · exact List.take_sublist _ _
  · exact List.take_sublist _ _

/-- Length of a nonnegative Python slice. -/
theorem pyTake_length_nonneg {α : Type} {k : Int} (hk : 0 ≤ k) (l : List α) :
    (pyTake k l).length = min k.toNat l.length := by
  simp [pyTake, hk]

/-- Length of a negative Python slice: the last `|k|` elements are dropped. -/
theorem pyTake_length_neg {α : Type} {k : Int} (hk : k < 0) (l : List α) :
    (pyTake k l).length = l.length - (-k).toNat := by
  have : ¬ 0 ≤ k := not_le.mpr hk
  simp only [pyTake, if_neg this, List.length_take]
  omega

/-- Slicing commutes with mapping. -/
theorem pyTake_map {α β : Type} (f : α → β) (k : Int) (l : List α) :
    pyTake k (l.map f) = (pyTake k l).map f := by
  unfold pyTake
  split
  · rw [List.map_take]
  · rw [List.length_map, List.map_take]

/-- C2 counterexample: `top_k = -1` does NOT yield an empty ranked list —
Python's `sorted_games[:-1]` drops only the last element, so with two
candidates the ranked list is `["a"]` (length 1, not ≤ -1, not empty). -/
theorem claim_C2_counterexample :
    (normalize_and_rank_scores (fun _ => 1) [("a", 2), ("b", 1)]
      [("a", 1), ("b", 1)] 1 (-1)).1 = ["a"] := by
  norm_num [normalize_and_rank_scores, sortDesc, insertDesc, pyTake, dgetD, dget]

/-- C2 amended: the ranked list is the `[:topK]` Python slice of the keys of
the returned scores map sorted by non-increasing value (hence always a
subsequence of those keys in descending order); for `topK ≥ 0` its length is at
most `topK` (so `topK = 0` gives an empty list), but a negative `topK` follows
Python slicing and only drops the last `|topK|` entries. -/
theorem claim_C2_amended : ∀ (lg : ℚ → ℚ) (sm : List (String × ℚ))
    (cnt : List (String × Nat)) (boost : ℚ) (k : Int),
    (normalize_and_rank_scores lg sm cnt boost k).1 =
      (pyTake k (sortDesc (normalize_and_rank_scores lg sm cnt boost k).2)).map Prod.fst ∧
    (sortDesc (normalize_and_rank_scores lg sm cnt boost k).2).Perm
      (normalize_and_rank_scores lg sm cnt boost k).2 ∧
    (sortDesc (normalize_and_rank_scores lg sm cnt boost k).2).Pairwise
      (fun a b => b.2 ≤ a.2) ∧
    (normalize_and_rank_scores lg sm cnt boost k).1.Sublist
      ((sortDesc (normalize_and_rank_scores lg sm cnt boost k).2).map Prod.fst) ∧
    (0 ≤ k → (normalize_and_rank_scores lg sm cnt boost k).1.length ≤ k.toNat) ∧
    (k < 0 → (normalize_and_rank_scores lg sm cnt boost k).1.length =
      (normalize_and_rank_scores lg sm cnt boost k).2.length - (-k).toNat) := by
  intro lg sm cnt boost k
  refine ⟨rfl, sortDesc_perm _, sortDesc_sorted _, ?_, ?_, ?_⟩
  · exact (pyTake_sublist k _).map Prod.fst
  · intro hk
    calc (normalize_and_rank_scores lg sm cnt boost k).1.length
        = (pyTake k (sortDesc (normalize_and_rank_scores lg sm cnt boost k).2)).length := by
          simp [normalize_and_rank_scores, pyTake]
      _ = min k.toNat (sortDesc (normalize_and_rank_scores lg sm cnt boost k).2).length :=
          pyTake_length_nonneg hk _
      _ ≤ k.toNat := min_le_left _ _
  · intro hk
    calc (normalize_and_rank_scores lg sm cnt boost k).1.length
        = (pyTake k (sortDesc (normalize_and_rank_scores lg sm cnt boost k).2)).length := by
          simp [normalize_and_rank_scores, pyTake]
      _ = (sortDesc (normalize_and_rank_scores lg sm cnt boost k).2).length - (-k).toNat :=
          pyTake_length_neg hk _
      _ = (normalize_and_rank_scores lg sm cnt boost k).2.length - (-k).toNat := by
          rw [(sortDesc_perm _).length_eq]

/-- C2 amended, witness: at `topK = 2` the ranked list has at most 2 entries;
at `topK = -1` with two candidates it has exactly one. -/
theorem claim_C2_amended_witness :
    (normalize_and_rank_scores (fun _ => 1) [("a", 2), ("b", 1)]
      [("a", 1), ("b", 1)] 1 2).1.length ≤ 2 ∧
    (normalize_and_rank_scores (fun _ => 1) [("a", 2), ("b", 1)]
      [("a", 1), ("b", 1)] 1 (-1)).1.length = 1 := by
  constructor
  · exact (claim_C2_amended (fun _ => 1) [("a", 2), ("b", 1)]
      [("a", 1), ("b", 1)] 1 2).2.2.2.2.1 (by decide)
  · have h := (claim_C2_amended (fun _ => 1) [("a", 2), ("b", 1)]
      [("a", 1), ("b", 1)] 1 (-1)).2.2.2.2.2 (by decide)
    simpa [normalize_and_rank_scores] using h

/-- If the key is not among the keys of the assoc list, lookup fails. -/
theorem dget_eq_none_of_not_mem {β : Type} {g : String} {l : List (String × β)}
    (h : g ∉ l.map Prod.fst) : dget g l = none := by
  induction l with
  | nil => rfl
  | cons p rest ih =>
    simp only [List.map_cons, List.mem_cons] at h
    push_neg at h
    have hne : ¬ p.1 = g := fun hh => h.1 (Eq.symm hh)
    simp only [dget, if_neg hne]
    exact ih h.2

/-- An entry of the assoc list makes lookup of its key succeed. -/
theorem dget_isSome_of_mem {β : Type} {g : String} {v : β} {l : List (String × β)}
    (h : (g, v) ∈ l) : (dget g l).isSome = true := by
  induction l with
  | nil => cases h
  | cons p rest ih =>
    rcases List.mem_cons.mp h with rfl | hm
    · simp [dget]
    · by_cases hp : p.1 = g
      · simp [dget, hp]
      · simp only [dget, if_neg hp]
        exact ih hm

/-- Lookup through a key-preserving map whose new value depends on the key and
the old value. -/
theorem dget_map_entry {β γ : Type} (F : String → β → γ) (g : String)
    (l : List (String × β)) :
    dget g (l.map (fun p => (p.1, F p.1 p.2))) = (dget g l).map (F g) := by
  induction l with
  | nil => rfl
  | cons p rest ih =>
    by_cases hp : p.1 = g
    · subst hp
      simp [dget]
    · simp [dget, hp, ih]

/-- Every value stored in `computeGenreMap t` is the `get_genres` list of its
key in `t`. -/
theorem dget_computeGenreMap (t : PTree) (g : String) :
    dget g (computeGenreMap t) = none ∨
    dget g (computeGenreMap t) = some (t.get_genres g) := by
  unfold computeGenreMap
  generalize t.get_all_game_names = names
  have H : ∀ (acc : List (String × List String)),
      (dget g acc = none ∨ dget g acc = some (t.get_genres g)) →
      dget g (names.foldl (fun m n => dset n (t.get_genres n) m) acc) = none ∨
      dget g (names.foldl (fun m n => dset n (t.get_genres n) m) acc) =
        some (t.get_genres g) := by
    induction names with
    | nil => intro acc h; exact h
    | cons n rest ih =>
      intro acc h
      simp only [List.foldl_cons]
      apply ih
      by_cases hn : n = g
      · subst hn
        right
        exact dget_dset_self n (t.get_genres n) acc
      · rw [dget_dset_ne (fun hh => hn hh.symm)]
        exact h
  exact H [] (Or.inl rfl)

/-- The accumulation step of both recommenders, abstracted over the candidate
test: if the test passes, add the weight to the score and bump the user count. -/
def accStepP (P : String → Bool) (acc : List (String × ℚ) × List (String × Nat))
    (gw : String × ℚ) : List (String × ℚ) × List (String × Nat) :=
  if P gw.1 then
    (dset gw.1 (dgetD gw.1 0 acc.1 + gw.2) acc.1,
     dset gw.1 (dgetD gw.1 0 acc.2 + 1) acc.2)
  else acc

/-- The gated step is the abstract step at the gated test. -/
theorem accStep_eq_accStepP (G : Graph) (liked : String)
    (tmap : List (String × List String)) (likedGenres : List String) :
    accStep G liked tmap likedGenres = accStepP (candOK G liked tmap likedGenres) := rfl

/-- The ungated step is the abstract step at the ungated test. -/
theorem accStepNoGate_eq_accStepP (G : Graph) (liked : String) :
    accStepNoGate G liked = accStepP (candOKNoGate G liked) := rfl
/-- Effect of the inner neighbour loop on the score map, the count map and key
presence at a fixed candidate `g`, for a neighbour dict with distinct keys. -/
theorem foldl_accStepP_spec (P : String → Bool) (g : String) :
    ∀ (l : List (String × ℚ)), (l.map Prod.fst).Nodup →
    ∀ acc : List (String × ℚ) × List (String × Nat),
      dgetD g 0 (l.foldl (accStepP P) acc).1 =
        dgetD g 0 acc.1 + (if P g then dgetD g 0 l else 0) ∧
      dgetD g 0 (l.foldl (accStepP P) acc).2 =
        dgetD g 0 acc.2 + (if P g && (dget g l).isSome then 1 else 0) ∧
      (dget g (l.foldl (accStepP P) acc).1).isSome =
        ((dget g acc.1).isSome || (P g && (dget g l).isSome)) := by
  intro l
  induction l with
  | nil =>
    intro _ acc
    refine ⟨?_, ?_, ?_⟩ <;> simp [dgetD, dget]
  | cons hd tl ih =>
    intro hnd acc
    rw [List.map_cons] at hnd
    have hnd' : (tl.map Prod.fst).Nodup := (List.nodup_cons.mp hnd).2
    have hmem : hd.1 ∉ tl.map Prod.fst := (List.nodup_cons.mp hnd).1
    simp only [List.foldl_cons]
    by_cases hg : hd.1 = g
    · subst hg
      have hnone : dget hd.1 tl = none := dget_eq_none_of_not_mem hmem
      by_cases hP : P hd.1
      · have h1 := ih hnd' (accStepP P acc hd)
        refine ⟨?_, ?_, ?_⟩
        · rw [h1.1]
          simp [accStepP, hP, dgetD, dget, hnone, dget_dset_self, add_assoc]
        · rw [h1.2.1]
          simp [accStepP, hP, dgetD, dget, hnone, dget_dset_self]
        · rw [h1.2.2]
          simp [accStepP, hP, dgetD, dget, hnone, dget_dset_self]
      · have h1 := ih hnd' (accStepP P acc hd)
        refine ⟨?_, ?_, ?_⟩
        · rw [h1.1]
          simp [accStepP, hP, dgetD, dget, hnone]
        · rw [h1.2.1]
          simp [accStepP, hP, dgetD, dget, hnone]
        · rw [h1.2.2]
          simp [accStepP, hP, dgetD, dget, hnone]
    · have hgetcons : dget g (hd :: tl) = dget g tl := by
        simp [dget, hg]
      have h1 := ih hnd' (accStepP P acc hd)
      have hne : g ≠ hd.1 := fun hh => hg (Eq.symm hh)
      by_cases hP : P hd.1
      · refine ⟨?_, ?_, ?_⟩
        · rw [h1.1]
          simp [accStepP, hP, dgetD, dget_dset_ne hne, hgetcons]
        · rw [h1.2.1]
          simp [accStepP, hP, dgetD, dget_dset_ne hne, hgetcons]
        · rw [h1.2.2]
          simp [accStepP, hP, dget_dset_ne hne, hgetcons]
      · refine ⟨?_, ?_, ?_⟩
        · rw [h1.1]
          simp [accStepP, hP, dgetD, hgetcons]
        · rw [h1.2.1]
          simp [accStepP, hP, dgetD, hgetcons]
        · rw [h1.2.2]
          simp [accStepP, hP, hgetcons]

/-- Effect of the outer user loop on the score map, the count map and key
presence at a fixed candidate `g`: if the candidate passes the test, its score
is the sum of its edge weights over the users and its count is the number of
users having it as a neighbour. -/
theorem foldl_accUserP_spec (G : Graph) (P : String → Bool) (g : String) :
    ∀ (users : List String), (∀ u ∈ users, ((adjOf G u).map Prod.fst).Nodup) →
    ∀ acc : List (String × ℚ) × List (String × Nat),
      dgetD g 0 ((users.foldl (fun a u => (adjOf G u).foldl (accStepP P) a) acc).1) =
        dgetD g 0 acc.1 +
          (if P g then (users.map (fun u => dgetD g 0 (adjOf G u))).sum else 0) ∧
      dgetD g 0 ((users.foldl (fun a u => (adjOf G u).foldl (accStepP P) a) acc).2) =
        dgetD g 0 acc.2 +
          (if P g then (users.filter (fun u => (dget g (adjOf G u)).isSome)).length else 0) ∧
      (dget g ((users.foldl (fun a u => (adjOf G u).foldl (accStepP P) a) acc).1)).isSome =
        ((dget g acc.1).isSome ||
          (P g && users.any (fun u => (dget g (adjOf G u)).isSome))) := by
  intro users
  induction users with
  | nil =>
    intro _ acc
    refine ⟨by simp, by simp, by simp⟩
  | cons u rest ih =>
    intro hnd acc
    have hu : ((adjOf G u).map Prod.fst).Nodup := hnd u (List.mem_cons_self u rest)
    have hrest : ∀ x ∈ rest, ((adjOf G x).map Prod.fst).Nodup :=
      fun x hx => hnd x (List.mem_cons_of_mem u hx)
    simp only [List.foldl_cons]
    have hinner := foldl_accStepP_spec P g (adjOf G u) hu acc
    have houter := ih hrest ((adjOf G u).foldl (accStepP P) acc)
    refine ⟨?_, ?_, ?_⟩
    · rw [houter.1, hinner.1]
      by_cases hP : P g <;> simp [hP, add_assoc]
    · rw [houter.2.1, hinner.2.1]
      by_cases hP : P g
      · by_cases hs : (dget g (adjOf G u)).isSome <;>
          simp [hP, hs, List.filter_cons, add_assoc, Nat.add_comm]
      · simp [hP]
    · rw [houter.2.2, hinner.2.2]
      by_cases hP : P g
      · simp [hP, Bool.or_assoc]
      · simp [hP]

/-- The outer loop of `filter_similar_genre_games` is the abstract double fold
at the gated candidate test. -/
theorem accUser_eq_accStepP (G : Graph) (liked : String)
    (tmap : List (String × List String)) (likedGenres : List String) :
    accUser G liked tmap likedGenres =
      fun acc u => (adjOf G u).foldl (accStepP (candOK G liked tmap likedGenres)) acc := rfl

/-- `genre_aware_recommend` without a tree errors. -/
theorem gar_error_left (lg : ℚ → ℚ) (liked : String) (k : Int)
    (gOpt : Option Graph) (boost : ℚ) :
    genre_aware_recommend lg liked k none gOpt boost =
      .error "genre_tree and graph_vertices must be provided." := rfl

/-- `genre_aware_recommend` without a graph errors. -/
theorem gar_error_right (lg : ℚ → ℚ) (liked : String) (k : Int)
    (tree : PTree) (boost : ℚ) :
    genre_aware_recommend lg liked k (some tree) none boost =
      .error "genre_tree and graph_vertices must be provided." := rfl

/-- A liked item that is unknown to the graph or not of kind game yields the
empty result. -/
theorem gar_not_game (lg : ℚ → ℚ) (liked : String) (k : Int) (tree : PTree)
    (G : Graph) (boost : ℚ) (hk : ¬ kindOf G liked = some "game") :
    genre_aware_recommend lg liked k (some tree) (some G) boost = .ok ([], [], []) := by
  simp [genre_aware_recommend, hk]

/-- A liked item with an empty category list yields the empty result. -/
theorem gar_empty_genres (lg : ℚ → ℚ) (liked : String) (k : Int) (tree : PTree)
    (G : Graph) (boost : ℚ) (hg : tree.get_genres liked = []) :
    genre_aware_recommend lg liked k (some tree) (some G) boost = .ok ([], [], []) := by
  by_cases hk : kindOf G liked = some "game"
  · simp [genre_aware_recommend, hk, hg]
  · exact gar_not_game lg liked k tree G boost hk

/-- The main path of `genre_aware_recommend`: liked game present, of kind game,
with a nonempty category list. -/
theorem gar_main (lg : ℚ → ℚ) (liked : String) (k : Int) (tree : PTree)
    (G : Graph) (boost : ℚ) (hk : kindOf G liked = some "game")
    (hg : ¬ tree.get_genres liked = []) :
    genre_aware_recommend lg liked k (some tree) (some G) boost =
      .ok ((normalize_and_rank_scores lg
              ((usersOf G liked).foldl
                (accUser G liked (computeGenreMap tree) (tree.get_genres liked)) ([], [])).1
              ((usersOf G liked).foldl
                (accUser G liked (computeGenreMap tree) (tree.get_genres liked)) ([], [])).2
              boost k).1,
            (normalize_and_rank_scores lg
              ((usersOf G liked).foldl
                (accUser G liked (computeGenreMap tree) (tree.get_genres liked)) ([], [])).1
              ((usersOf G liked).foldl
                (accUser G liked (computeGenreMap tree) (tree.get_genres liked)) ([], [])).2
              boost k).2,
            computeGenreMap tree) := by
  simp [genre_aware_recommend, hk, List.isEmpty_iff, hg, filter_similar_genre_games]

/-- C1 counterexample: for a liked game that is present, correctly categorized,
but isolated (no user neighbours), the call succeeds with empty ranked list and
empty scores, yet the third component is the FULL tree index — it has an entry
for the never-ranked game "Beta", so it is neither empty nor restricted to
ranked items. -/
theorem claim_C1_counterexample :
    genre_aware_recommend (fun _ => 1) "Alpha" 5 (some exT) (some exGiso) 2 =
      .ok ([], [], [("Alpha", ["Act"]), ("Beta", ["Act"])]) := rfl

/-- C1 amended: on every successful call, the third component is either the
whole precomputed item→categories index of the tree (main path) or empty (the
early-return paths); in particular an isolated liked item yields empty ranked
list and scores but the full tree index as categories map. -/
theorem claim_C1_amended : ∀ (lg : ℚ → ℚ) (liked : String) (k : Int) (tree : PTree)
    (G : Graph) (boost : ℚ),
    (∀ r s m, genre_aware_recommend lg liked k (some tree) (some G) boost = .ok (r, s, m) →
      m = computeGenreMap tree ∨ (r = [] ∧ s = [] ∧ m = [])) ∧
    (kindOf G liked = some "game" → PTree.get_genres tree liked ≠ [] →
      usersOf G liked = [] →
      genre_aware_recommend lg liked k (some tree) (some G) boost =
        .ok ([], [], computeGenreMap tree)) := by
  intro lg liked k tree G boost
  constructor
  · intro r s m heq
    by_cases hk : kindOf G liked = some "game"
    · by_cases hg : PTree.get_genres tree liked = []
      · rw [gar_empty_genres lg liked k tree G boost hg] at heq
        simp only [Except.ok.injEq, Prod.mk.injEq] at heq
        exact Or.inr ⟨heq.1.symm, heq.2.1.symm, heq.2.2.symm⟩
      · rw [gar_main lg liked k tree G boost hk hg] at heq
        simp only [Except.ok.injEq, Prod.mk.injEq] at heq
        exact Or.inl heq.2.2.symm
    · rw [gar_not_game lg liked k tree G boost hk] at heq
      simp only [Except.ok.injEq, Prod.mk.injEq] at heq
      exact Or.inr ⟨heq.1.symm, heq.2.1.symm, heq.2.2.symm⟩
  · intro hk hg husers
    rw [gar_main lg liked k tree G boost hk hg, husers]
    simp [normalize_and_rank_scores, sortDesc, pyTake]

/-- C1 amended, witness: the isolated liked game "Alpha" in `exGiso`. -/
theorem claim_C1_amended_witness :
    genre_aware_recommend (fun _ => 1) "Alpha" 5 (some exT) (some exGiso) 2 =
      .ok ([], [], computeGenreMap exT) :=
  (claim_C1_amended (fun _ => 1) "Alpha" 5 exT exGiso 2).2
    (by decide) (by decide) (by decide)

/-- C8: `genre_aware_recommend` errors exactly when a required collaborator is
missing (`genre_tree is None or graph_vertices is None`); with both supplied it
always returns normally, and a liked item that is unknown, not of kind game, or
has an empty category list yields `([], {}, {})` rather than an exception. -/
theorem claim_C8 : ∀ (lg : ℚ → ℚ) (liked : String) (k : Int) (boost : ℚ),
    (∀ gOpt, ∃ e, genre_aware_recommend lg liked k none gOpt boost = .error e) ∧
    (∀ tree, ∃ e, genre_aware_recommend lg liked k (some tree) none boost = .error e) ∧
    (∀ tree G, ∃ t, genre_aware_recommend lg liked k (some tree) (some G) boost = .ok t) ∧
    (∀ tree G, kindOf G liked ≠ some "game" →
      genre_aware_recommend lg liked k (some tree) (some G) boost = .ok ([], [], [])) ∧
    (∀ tree G, PTree.get_genres tree liked = [] →
      genre_aware_recommend lg liked k (some tree) (some G) boost = .ok ([], [], [])) := by
  intro lg liked k boost
  refine ⟨fun gOpt => ⟨_, gar_error_left lg liked k gOpt boost⟩,
          fun tree => ⟨_, gar_error_right lg liked k tree boost⟩,
          fun tree G => ?_,
          fun tree G hk => gar_not_game lg liked k tree G boost hk,
          fun tree G hg => gar_empty_genres lg liked k tree G boost hg⟩
  by_cases hk : kindOf G liked = some "game"
  · by_cases hg : PTree.get_genres tree liked = []
    · exact ⟨_, gar_empty_genres lg liked k tree G boost hg⟩
    · exact ⟨_, gar_main lg liked k tree G boost hk hg⟩
  · exact ⟨_, gar_not_game lg liked k tree G boost hk⟩

/-- C8, witness: a liked item unknown to the graph returns the empty triple. -/
theorem claim_C8_witness :
    genre_aware_recommend (fun _ => 1) "Unknown" 5 (some exT) (some exG) 1 =
      .ok ([], [], []) :=
  (claim_C8 (fun _ => 1) "Unknown" 5 1).2.2.2.1 exT exG (by decide)

/-- C6: every score in the returned scores map of `genre_aware_recommend`
equals `(rawScore / log(1 + supportCount)) * boostFactor`, where `rawScore`
sums the user→candidate edge weights over the liked game's neighbour users and
`supportCount` counts the distinct users contributing (one per user, not per
edge; neighbour dicts have distinct keys). -/
theorem claim_C6 : ∀ (lg : ℚ → ℚ) (liked : String) (k : Int) (tree : PTree)
    (G : Graph) (boost : ℚ) (r : List String) (s : List (String × ℚ))
    (m : List (String × List String)) (g : String) (v : ℚ),
    (∀ u ∈ usersOf G liked, ((adjOf G u).map Prod.fst).Nodup) →
    genre_aware_recommend lg liked k (some tree) (some G) boost = .ok (r, s, m) →
    dget g s = some v →
    v = rawScoreOf G liked g / lg (1 + (supportOf G liked g : ℚ)) * boost := by
  intro lg liked k tree G boost r s m g v hnd heq hv
  by_cases hk : kindOf G liked = some "game"
  case neg =>
    rw [gar_not_game lg liked k tree G boost hk] at heq
    simp only [Except.ok.injEq, Prod.mk.injEq] at heq
    rw [← heq.2.1] at hv
    simp [dget] at hv
  by_cases hg : PTree.get_genres tree liked = []
  case pos =>
    rw [gar_empty_genres lg liked k tree G boost hg] at heq
    simp only [Except.ok.injEq, Prod.mk.injEq] at heq
    rw [← heq.2.1] at hv
    simp [dget] at hv
  rw [gar_main lg liked k tree G boost hk hg] at heq
  simp only [Except.ok.injEq, Prod.mk.injEq] at heq
  have hspec := foldl_accUserP_spec G
    (candOK G liked (computeGenreMap tree) (PTree.get_genres tree liked)) g
    (usersOf G liked) hnd ([], [])
  rw [← accUser_eq_accStepP G liked (computeGenreMap tree)
    (PTree.get_genres tree liked)] at hspec
  set fold := (usersOf G liked).foldl
    (accUser G liked (computeGenreMap tree) (PTree.get_genres tree liked)) ([], [])
  have hs : s = fold.1.map (fun p =>
      (p.1, p.2 / lg (1 + (dgetD p.1 0 fold.2 : Nat)) * boost)) := by
    rw [← heq.2.1]
    rfl
  have hmap : dget g s = (dget g fold.1).map
      (fun val => val / lg (1 + (dgetD g 0 fold.2 : Nat)) * boost) := by
    rw [hs]
    exact dget_map_entry (fun key val =>
      val / lg (1 + (dgetD key 0 fold.2 : Nat)) * boost) g fold.1
  cases hw : dget g fold.1 with
  | none =>
    rw [hw] at hmap
    rw [hmap] at hv
    simp at hv
  | some w =>
    rw [hw] at hmap
    rw [hmap] at hv
    have hvv : v = w / lg (1 + (dgetD g 0 fold.2 : Nat)) * boost :=
      (Option.some.inj hv).symm
    have hpres := hspec.2.2
    rw [hw] at hpres
    simp only [Option.isSome_some, dget, Option.isSome_none, Bool.false_or] at hpres
    have hP : candOK G liked (computeGenreMap tree) (PTree.get_genres tree liked) g
        = true := by
      have h2 : (candOK G liked (computeGenreMap tree) (PTree.get_genres tree liked) g &&
          (usersOf G liked).any fun u => (dget g (adjOf G u)).isSome) = true := hpres.symm
      rw [Bool.and_eq_true] at h2
      exact h2.1
    have hval := hspec.1
    rw [if_pos hP] at hval
    have hcnt := hspec.2.1
    rw [if_pos hP] at hcnt
    have hwv : w = rawScoreOf G liked g := by
      have hget : dgetD g 0 fold.1 = w := by simp [dgetD, hw]
      rw [hget] at hval
      simpa [rawScoreOf, dgetD, dget] using hval
    have hcv : dgetD g 0 fold.2 = supportOf G liked g := by
      simpa [supportOf, dgetD, dget] using hcnt
    rw [hvv, hwv, hcv]

/-- C6, witness: in `exG`, candidate "Beta" has raw score 3 from one user, so
its final score is `3 / lg 2 * 1` (here with `lg` the constant-1 function). -/
theorem claim_C6_witness :
    (3 : ℚ) = rawScoreOf exG "Alpha" "Beta" / 1 * 1 :=
  claim_C6 (fun _ => (1 : ℚ)) "Alpha" 5 exT exG 1 ["Beta"] [("Beta", 3)]
    [("Alpha", ["Act"]), ("Beta", ["Act"])] "Beta" 3 (by decide)
    (by
      norm_num [genre_aware_recommend, filter_similar_genre_games, usersOf, adjOf, kindOf,
        computeGenreMap, PTree.get_all_game_names, PForest.allNames, PTree.get_genres,
        PForest.genresIn, PTree.containsItem, PForest.anyContains, PTree.rootList,
        dget, dset, dgetD, accUser, accStep, candOK, intersects,
        normalize_and_rank_scores, sortDesc, insertDesc, pyTake, exT, exG,
        List.foldl, List.filter]
      decide)
    (by decide)

/-- Key presence in the score map after the inner neighbour loop (no
distinct-keys assumption needed). -/
theorem foldl_accStepP_presence (P : String → Bool) (g : String) :
    ∀ (l : List (String × ℚ)) (acc : List (String × ℚ) × List (String × Nat)),
      (dget g (l.foldl (accStepP P) acc).1).isSome =
        ((dget g acc.1).isSome || (P g && (dget g l).isSome)) := by
  intro l
  induction l with
  | nil => intro acc; simp [dget]
  | cons hd tl ih =>
    intro acc
    simp only [List.foldl_cons]
    rw [ih (accStepP P acc hd)]
    by_cases hg : hd.1 = g
    · subst hg
      by_cases hP : P hd.1
      · simp [accStepP, hP, dget, dget_dset_self, Bool.or_assoc]
      · simp [accStepP, hP, dget]
    · have hne : g ≠ hd.1 := fun hh => hg (Eq.symm hh)
      have hcons : dget g (hd :: tl) = dget g tl := by simp [dget, hg]
      by_cases hP : P hd.1
      · simp [accStepP, hP, dget_dset_ne hne, hcons]
      · simp [accStepP, hP, hcons]

/-- Key presence in the score map after the outer user loop (no distinct-keys
assumption needed). -/
theorem foldl_accUserP_presence (G : Graph) (P : String → Bool) (g : String) :
    ∀ (users : List String) (acc : List (String × ℚ) × List (String × Nat)),
      (dget g ((users.foldl (fun a u => (adjOf G u).foldl (accStepP P) a) acc).1)).isSome =
        ((dget g acc.1).isSome ||
          (P g && users.any (fun u => (dget g (adjOf G u)).isSome))) := by
  intro users
  induction users with
  | nil => intro acc; simp
  | cons u rest ih =>
    intro acc
    simp only [List.foldl_cons]
    rw [ih ((adjOf G u).foldl (accStepP P) acc), foldl_accStepP_presence P g (adjOf G u) acc]
    by_cases hP : P g
    · simp [hP, Bool.or_assoc]
    · simp [hP]

/-- C7: every item in the ranked list (indeed, every key of the scores map) of
a `genre_aware_recommend` call shares at least one category with the liked
item: the relevance gate admits no candidate whose category set is disjoint
from the liked item's categories. -/
theorem claim_C7 : ∀ (lg : ℚ → ℚ) (liked : String) (k : Int) (tree : PTree)
    (G : Graph) (boost : ℚ) (r : List String) (s : List (String × ℚ))
    (m : List (String × List String)),
    genre_aware_recommend lg liked k (some tree) (some G) boost = .ok (r, s, m) →
    ∀ g, (g ∈ r ∨ (dget g s).isSome) →
    ∃ c, c ∈ PTree.get_genres tree g ∧ c ∈ PTree.get_genres tree liked := by
  intro lg liked k tree G boost r s m heq g hgm
  by_cases hk : kindOf G liked = some "game"
  case neg =>
    rw [gar_not_game lg liked k tree G boost hk] at heq
    simp only [Except.ok.injEq, Prod.mk.injEq] at heq
    rw [← heq.1, ← heq.2.1] at hgm
    simp [dget] at hgm
  by_cases hgl : PTree.get_genres tree liked = []
  case pos =>
    rw [gar_empty_genres lg liked k tree G boost hgl] at heq
    simp only [Except.ok.injEq, Prod.mk.injEq] at heq
    rw [← heq.1, ← heq.2.1] at hgm
    simp [dget] at hgm
  rw [gar_main lg liked k tree G boost hk hgl] at heq
  simp only [Except.ok.injEq, Prod.mk.injEq] at heq
  set fold := (usersOf G liked).foldl
    (accUser G liked (computeGenreMap tree) (PTree.get_genres tree liked)) ([], [])
  have hsmap : ∀ q : String, (dget q (normalize_and_rank_scores lg fold.1 fold.2 boost k).2).isSome =
      (dget q fold.1).isSome := by
    intro q
    have hm := dget_map_entry (fun key val =>
      val / lg (1 + (dgetD key 0 fold.2 : Nat)) * boost) q fold.1
    calc (dget q (normalize_and_rank_scores lg fold.1 fold.2 boost k).2).isSome
        = ((dget q fold.1).map (fun val =>
            val / lg (1 + (dgetD q 0 fold.2 : Nat)) * boost)).isSome := by rw [← hm]; rfl
      _ = (dget q fold.1).isSome := by cases dget q fold.1 <;> rfl
  have hsome : (dget g fold.1).isSome = true := by
    rcases hgm with hgr | hgs
    · rw [← heq.1] at hgr
      rcases List.mem_map.mp hgr with ⟨p, hp, hpg⟩
      have hps : p ∈ sortDesc (normalize_and_rank_scores lg fold.1 fold.2 boost k).2 :=
        (pyTake_sublist k _).mem hp
      have hpm : p ∈ (normalize_and_rank_scores lg fold.1 fold.2 boost k).2 :=
        (sortDesc_perm _).mem_iff.mp hps
      have hps' : (dget g (normalize_and_rank_scores lg fold.1 fold.2 boost k).2).isSome :=
        dget_isSome_of_mem (g := g) (v := p.2) (by rw [← hpg]; simpa using hpm)
      rw [← hsmap g]
      exact hps'
    · rw [← heq.2.1] at hgs
      rw [← hsmap g]
      exact hgs
  have hpres := foldl_accUserP_presence G
    (candOK G liked (computeGenreMap tree) (PTree.get_genres tree liked)) g
    (usersOf G liked) ([], [])
  rw [← accUser_eq_accStepP G liked (computeGenreMap tree)
    (PTree.get_genres tree liked)] at hpres
  rw [hsome] at hpres
  simp only [dget, Option.isSome_none, Bool.false_or] at hpres
  have hP : candOK G liked (computeGenreMap tree) (PTree.get_genres tree liked) g
      = true := by
    have h2 : (candOK G liked (computeGenreMap tree) (PTree.get_genres tree liked) g &&
        (usersOf G liked).any fun u => (dget g (adjOf G u)).isSome) = true := hpres.symm
    rw [Bool.and_eq_true] at h2
    exact h2.1
  have hint : intersects (PTree.get_genres tree liked)
      (dgetD g [] (computeGenreMap tree)) = true := by
    simp only [candOK, Bool.and_eq_true] at hP
    exact hP.2
  have hex : ∃ c ∈ PTree.get_genres tree liked,
      c ∈ dgetD g [] (computeGenreMap tree) := by
    simpa [intersects, List.any_eq_true] using hint
  rcases hex with ⟨c, hc1, hc2⟩
  rcases dget_computeGenreMap tree g with hnone | hsomeg
  · rw [dgetD, hnone] at hc2
    simp at hc2
  · rw [dgetD, hsomeg] at hc2
    exact ⟨c, by simpa using hc2, hc1⟩

/-- C7, witness: recommended game "Beta" shares category "Act" with the liked
game "Alpha". -/
theorem claim_C7_witness :
    ∃ c, c ∈ PTree.get_genres exT "Beta" ∧ c ∈ PTree.get_genres exT "Alpha" :=
  claim_C7 (fun _ => 1) "Alpha" 5 exT exG 1 ["Beta"] [("Beta", 3)]
    [("Alpha", ["Act"]), ("Beta", ["Act"])]
    (by
      norm_num [genre_aware_recommend, filter_similar_genre_games, usersOf, adjOf, kindOf,
        computeGenreMap, PTree.get_all_game_names, PForest.allNames, PTree.get_genres,
        PForest.genresIn, PTree.containsItem, PForest.anyContains, PTree.rootList,
        dget, dset, dgetD, accUser, accStep, candOK, intersects,
        normalize_and_rank_scores, sortDesc, insertDesc, pyTake, exT, exG,
        List.foldl, List.filter]
      decide)
    "Beta" (Or.inl (by decide))

/-- A uniform form of `dget` after `dset`. -/
theorem dget_dset {β : Type} (b n : String) (w : β) (l : List (String × β)) :
    dget b (dset n w l) = if n = b then some w else dget b l := by
  by_cases h : n = b
  · subst h
    simp [dget_dset_self]
  · rw [if_neg h]
    exact dget_dset_ne (fun hh => h (Eq.symm hh)) w l

/-- Lookup after updating the vertex stored under `i`. -/
theorem dget_updateVtx (G : Graph) (i : String) (f : Vtx → Vtx) (a : String) :
    dget a (updateVtx G i f) = if i = a then (dget a G).map f else dget a G := by
  induction G with
  | nil => simp [updateVtx, dget]
  | cons p rest ih =>
    simp only [updateVtx, List.map_cons]
    by_cases hpi : p.1 = i
    · simp only [if_pos hpi]
      by_cases hpa : p.1 = a
      · have hia : i = a := by rw [← hpi, hpa]
        simp [dget, hpa, hia]
      · have hia' : ¬ i = a := fun hh => hpa (by rw [hpi, hh])
        simp only [dget, if_neg hpa]
        exact ih
    · simp only [if_neg hpi]
      by_cases hpa : p.1 = a
      · by_cases hia : i = a
        · exact absurd (hpa.trans hia.symm) hpi
        · simp [dget, hpa, hia]
      · simp only [dget, if_neg hpa]
        exact ih

/-- Lookup after appending a single fresh entry. -/
theorem dget_append_single {β : Type} (G : List (String × β)) (i : String) (v : β)
    (a : String) :
    dget a (G ++ [(i, v)]) =
      match dget a G with
      | some w => some w
      | none => if i = a then some v else none := by
  induction G with
  | nil => simp [dget]
  | cons p rest ih =>
    by_cases hpa : p.1 = a
    · simp [dget, hpa]
    · simp only [List.cons_append, dget, if_neg hpa]
      exact ih

/-- Updating a vertex never changes which items are present. -/
theorem dget_updateVtx_isSome (G : Graph) (i : String) (f : Vtx → Vtx) (a : String) :
    (dget a (updateVtx G i f)).isSome = (dget a G).isSome := by
  rw [dget_updateVtx]
  by_cases h : i = a
  · simp [h]
  · simp [h]

/-- `vtxAddNeighbour` keeps the vertex kind. -/
theorem kind_vtxAddNeighbour (v : Vtx) (n : String) (w : ℚ) :
    (vtxAddNeighbour v n w).kind = v.kind := rfl

/-- Updating neighbours never changes any vertex kind. -/
theorem kindOf_updateVtx_addN (G : Graph) (i n : String) (w : ℚ) (a : String) :
    kindOf (updateVtx G i (fun v => vtxAddNeighbour v n w)) a = kindOf G a := by
  unfold kindOf
  rw [dget_updateVtx]
  by_cases h : i = a
  · subst h
    cases dget i G <;> simp [vtxAddNeighbour]
  · simp [h]

/-- `add_user_game_edge` never changes any vertex kind. -/
theorem kindOf_add_user_game_edge (G : Graph) (i1 i2 : String) (w : ℚ) (a : String) :
    kindOf (add_user_game_edge G i1 i2 w) a = kindOf G a := by
  unfold add_user_game_edge
  split
  · rw [kindOf_updateVtx_addN, kindOf_updateVtx_addN]
  · rfl

/-- `add_user_game_edge` never changes which items are present. -/
theorem dget_add_user_game_edge_isSome (G : Graph) (i1 i2 : String) (w : ℚ) (a : String) :
    (dget a (add_user_game_edge G i1 i2 w)).isSome = (dget a G).isSome := by
  unfold add_user_game_edge
  split
  · rw [dget_updateVtx_isSome, dget_updateVtx_isSome]
  · rfl

/-- The edge weights after updating one endpoint's neighbour dict. -/
theorem edgeWeight_updateVtx_addN (G : Graph) (i n : String) (w : ℚ) (a b : String) :
    edgeWeight (updateVtx G i (fun v => vtxAddNeighbour v n w)) a b =
      if a = i ∧ b = n ∧ (dget i G).isSome = true then some w else edgeWeight G a b := by
  unfold edgeWeight
  rw [dget_updateVtx]
  by_cases hai : i = a
  · subst hai
    cases hv : dget i G with
    | none => simp
    | some v =>
      simp only [Option.map_some, Option.isSome_some]
      by_cases hbn : b = n
      · subst hbn
        simp [vtxAddNeighbour, dget_dset]
      · have hnb : ¬ n = b := fun hh => hbn (Eq.symm hh)
        simp [vtxAddNeighbour, dget_dset, hnb, hbn]
  · have hne : ¬ a = i := fun hh => hai (Eq.symm hh)
    simp [hai, hne]

/-- Edge weights after `add_user_game_edge` with both endpoints present: the
two directed entries between `i1` and `i2` are set to `w`, everything else is
unchanged. -/
theorem edgeWeight_add_user_game_edge (G : Graph) (i1 i2 : String) (w : ℚ)
    (h1 : (dget i1 G).isSome = true) (h2 : (dget i2 G).isSome = true) (a b : String) :
    edgeWeight (add_user_game_edge G i1 i2 w) a b =
      if a = i2 ∧ b = i1 then some w
      else if a = i1 ∧ b = i2 then some w
      else edgeWeight G a b := by
  unfold add_user_game_edge
  rw [if_pos (by rw [Bool.and_eq_true]; exact ⟨h1, h2⟩)]
  rw [edgeWeight_updateVtx_addN, edgeWeight_updateVtx_addN]
  simp [dget_updateVtx_isSome, h1, h2]

/-- `add_vertex` on an already-present item is the identity. -/
theorem add_vertex_present (G : Graph) (i k : String)
    (hp : (dget i G).isSome = true) : add_vertex G i k = G := by
  unfold add_vertex
  rw [if_pos hp]

/-- `add_vertex` keeps every present entry. -/
theorem dget_add_vertex_of_some (G : Graph) (i k : String) {a : String} {v : Vtx}
    (hv : dget a G = some v) : dget a (add_vertex G i k) = some v := by
  unfold add_vertex
  by_cases hp : (dget i G).isSome = true
  · rw [if_pos hp]
    exact hv
  · rw [if_neg hp]
    rw [dget_append_single G i ⟨k, []⟩ a, hv]

/-- After an effective `add_vertex`, an absent item is the fresh vertex or
still absent. -/
theorem dget_add_vertex_of_none (G : Graph) (i k : String) (hni : dget i G = none)
    {a : String} (hv : dget a G = none) :
    dget a (add_vertex G i k) = if i = a then some ⟨k, []⟩ else none := by
  unfold add_vertex
  rw [if_neg (by simp [hni])]
  rw [dget_append_single G i ⟨k, []⟩ a, hv]

/-- On a closed graph, an effective `add_vertex` creates no edge: every weight
involving the fresh item is `none` and the rest are unchanged. -/
theorem edgeWeight_add_vertex (G : Graph) (i k : String) (hni : dget i G = none)
    (hC : Closed G) (a b : String) :
    edgeWeight (add_vertex G i k) a b =
      if a = i then none else if b = i then none else edgeWeight G a b := by
  cases hv : dget a G with
  | some va =>
    have hai : ¬ a = i := fun hh => by rw [hh, hni] at hv; cases hv
    have hrhs : edgeWeight G a b = dget b va.neighbours := by
      unfold edgeWeight
      rw [hv]
    have hlhs : edgeWeight (add_vertex G i k) a b = dget b va.neighbours := by
      unfold edgeWeight
      rw [dget_add_vertex_of_some G i k hv]
    rw [if_neg hai, hrhs, hlhs]
    by_cases hbi : b = i
    · rw [if_pos hbi]
      subst hbi
      cases hw : dget b va.neighbours with
      | none => rfl
      | some x =>
        have hbs : (dget b G).isSome = true := hC a va hv b (by rw [hw]; rfl)
        rw [hni] at hbs
        simp at hbs
    · rw [if_neg hbi]
  | none =>
    have hrhs : edgeWeight G a b = none := by
      unfold edgeWeight
      rw [hv]
    rw [hrhs]
    simp only [ite_self]
    unfold edgeWeight
    rw [dget_add_vertex_of_none G i k hni hv]
    by_cases hia : i = a
    · rw [if_pos hia]
      show dget b ([] : List (String × ℚ)) = none
      rfl
    · rw [if_neg hia]

/-- Kinds after an effective `add_vertex`: existing kinds kept, the fresh item
gets kind `k`. -/
theorem kindOf_add_vertex_of_some (G : Graph) (i k : String) {a : String} {v : Vtx}
    (hv : dget a G = some v) : kindOf (add_vertex G i k) a = some v.kind := by
  unfold kindOf
  rw [dget_add_vertex_of_some G i k hv]
  rfl

/-- Kinds after an effective `add_vertex`, absent-item case. -/
theorem kindOf_add_vertex_of_none (G : Graph) (i k : String) (hni : dget i G = none)
    {a : String} (hv : dget a G = none) :
    kindOf (add_vertex G i k) a = if i = a then some k else none := by
  unfold kindOf
  rw [dget_add_vertex_of_none G i k hni hv]
  by_cases hia : i = a
  · rw [if_pos hia, if_pos hia]
    rfl
  · rw [if_neg hia, if_neg hia]
    rfl

/-- Symmetry and closedness are preserved by `add_vertex`. -/
theorem add_vertex_preserves_SC (G : Graph) (i k : String)
    (hS : Symm G) (hC : Closed G) :
    Symm (add_vertex G i k) ∧ Closed (add_vertex G i k) := by
  by_cases hp : (dget i G).isSome = true
  · rw [add_vertex_present G i k hp]
    exact ⟨hS, hC⟩
  · have hni : dget i G = none := by
      cases hh : dget i G with
      | none => rfl
      | some v => rw [hh] at hp; simp at hp
    constructor
    · intro a b
      rw [edgeWeight_add_vertex G i k hni hC a b, edgeWeight_add_vertex G i k hni hC b a]
      by_cases hai : a = i
      · by_cases hbi : b = i
        · simp [hai, hbi]
        · simp [hai, hbi]
      · by_cases hbi : b = i
        · simp [hai, hbi]
        · simp [hai, hbi, hS a b]
    · intro a v hv b hb
      cases hva : dget a G with
      | some va =>
        rw [dget_add_vertex_of_some G i k hva] at hv
        injection hv with hveq
        subst hveq
        have hbs : (dget b G).isSome = true := hC a va hva b hb
        cases hbG : dget b G with
        | none => rw [hbG] at hbs; simp at hbs
        | some vb => rw [dget_add_vertex_of_some G i k hbG]; rfl
      | none =>
        rw [dget_add_vertex_of_none G i k hni hva] at hv
        by_cases hia : i = a
        · rw [if_pos hia] at hv
          injection hv with hveq
          subst hveq
          simp [dget] at hb
        · rw [if_neg hia] at hv
          cases hv

/-- Bipartiteness is preserved by `add_vertex` on a closed graph. -/
theorem add_vertex_preserves_B (G : Graph) (i k : String)
    (hC : Closed G) (hB : Bipartite G) : Bipartite (add_vertex G i k) := by
  by_cases hp : (dget i G).isSome = true
  · rw [add_vertex_present G i k hp]
    exact hB
  · have hni : dget i G = none := by
      cases hh : dget i G with
      | none => rfl
      | some v => rw [hh] at hp; simp at hp
    intro a b hab
    rw [edgeWeight_add_vertex G i k hni hC a b] at hab
    by_cases hai : a = i
    · rw [if_pos hai] at hab
      simp at hab
    · rw [if_neg hai] at hab
      by_cases hbi : b = i
      · rw [if_pos hbi] at hab
        simp at hab
      · rw [if_neg hbi] at hab
        -- the edge already existed, and both endpoints keep their kinds
        have hak : ∃ va, dget a G = some va := by
          cases hva : dget a G with
          | none =>
            have : edgeWeight G a b = none := by unfold edgeWeight; rw [hva]
            rw [this] at hab
            simp at hab
          | some va => exact ⟨va, rfl⟩
        rcases hak with ⟨va, hva⟩
        have hbk : (dget b G).isSome = true := by
          apply hC a va hva b
          have : edgeWeight G a b = dget b va.neighbours := by
            unfold edgeWeight; rw [hva]
          rw [this] at hab
          exact hab
        rcases Option.isSome_iff_exists.mp hbk with ⟨vb, hvb⟩
        have h1 : kindOf (add_vertex G i k) a = kindOf G a := by
          rw [kindOf_add_vertex_of_some G i k hva]
          unfold kindOf
          rw [hva]
          rfl
        have h2 : kindOf (add_vertex G i k) b = kindOf G b := by
          rw [kindOf_add_vertex_of_some G i k hvb]
          unfold kindOf
          rw [hvb]
          rfl
        rw [h1, h2]
        apply hB a b
        unfold edgeWeight
        rw [hva]
        have : edgeWeight G a b = dget b va.neighbours := by
          unfold edgeWeight; rw [hva]
        rw [this] at hab
        exact hab

/-- Closedness via edge weights. -/
theorem closed_iff (G : Graph) :
    Closed G ↔ ∀ a b, (edgeWeight G a b).isSome = true → (dget b G).isSome = true := by
  constructor
  · intro hC a b hab
    cases hva : dget a G with
    | none =>
      have : edgeWeight G a b = none := by unfold edgeWeight; rw [hva]
      rw [this] at hab
      simp at hab
    | some va =>
      apply hC a va hva b
      have : edgeWeight G a b = dget b va.neighbours := by unfold edgeWeight; rw [hva]
      rw [this] at hab
      exact hab
  · intro h a v hv b hb
    apply h a b
    have : edgeWeight G a b = dget b v.neighbours := by unfold edgeWeight; rw [hv]
    rw [this]
    exact hb

/-- Symmetry and closedness are preserved by `add_user_game_edge`. -/
theorem add_edge_preserves_SC (G : Graph) (i1 i2 : String) (w : ℚ)
    (hS : Symm G) (hC : Closed G) :
    Symm (add_user_game_edge G i1 i2 w) ∧ Closed (add_user_game_edge G i1 i2 w) := by
  by_cases hcond : ((dget i1 G).isSome && (dget i2 G).isSome) = true
  case neg =>
    have hid : add_user_game_edge G i1 i2 w = G := by
      unfold add_user_game_edge
      rw [if_neg hcond]
    rw [hid]
    exact ⟨hS, hC⟩
  rw [Bool.and_eq_true] at hcond
  obtain ⟨h1, h2⟩ := hcond
  constructor
  · intro a b
    rw [edgeWeight_add_user_game_edge G i1 i2 w h1 h2 a b,
        edgeWeight_add_user_game_edge G i1 i2 w h1 h2 b a]
    by_cases hc1 : a = i2 ∧ b = i1
    · rw [if_pos hc1]
      by_cases hd1 : b = i2 ∧ a = i1
      · rw [if_pos hd1]
      · rw [if_neg hd1, if_pos ⟨hc1.2, hc1.1⟩]
    · rw [if_neg hc1]
      by_cases hc2 : a = i1 ∧ b = i2
      · rw [if_pos hc2, if_pos ⟨hc2.2, hc2.1⟩]
      · rw [if_neg hc2]
        have hd1 : ¬ (b = i2 ∧ a = i1) := fun hh => hc2 ⟨hh.2, hh.1⟩
        have hd2 : ¬ (b = i1 ∧ a = i2) := fun hh => hc1 ⟨hh.2, hh.1⟩
        rw [if_neg hd1, if_neg hd2]
        exact hS a b
  · apply (closed_iff _).mpr
    intro a b hab
    rw [edgeWeight_add_user_game_edge G i1 i2 w h1 h2 a b] at hab
    rw [dget_add_user_game_edge_isSome]
    by_cases hc1 : a = i2 ∧ b = i1
    · rw [hc1.2]
      exact h1
    · rw [if_neg hc1] at hab
      by_cases hc2 : a = i1 ∧ b = i2
      · rw [hc2.2]
        exact h2
      · rw [if_neg hc2] at hab
        exact (closed_iff G).mp hC a b hab

/-- Bipartiteness is preserved by a kind-safe `add_user_game_edge`. -/
theorem add_edge_preserves_B (G : Graph) (i1 i2 : String) (w : ℚ)
    (hB : Bipartite G) (hk : opKindSafe G (.addE i1 i2 w) = true) :
    Bipartite (add_user_game_edge G i1 i2 w) := by
  by_cases hcond : ((dget i1 G).isSome && (dget i2 G).isSome) = true
  case neg =>
    have hid : add_user_game_edge G i1 i2 w = G := by
      unfold add_user_game_edge
      rw [if_neg hcond]
    rw [hid]
    exact hB
  rw [Bool.and_eq_true] at hcond
  obtain ⟨h1, h2⟩ := hcond
  have hkk : kindOf G i1 ≠ kindOf G i2 := by
    unfold opKindSafe at hk
    simp [h1, h2] at hk
    exact hk
  intro a b hab
  rw [edgeWeight_add_user_game_edge G i1 i2 w h1 h2 a b] at hab
  rw [kindOf_add_user_game_edge, kindOf_add_user_game_edge]
  by_cases hc1 : a = i2 ∧ b = i1
  · rw [hc1.1, hc1.2]
    exact fun hh => hkk (Eq.symm hh)
  · rw [if_neg hc1] at hab
    by_cases hc2 : a = i1 ∧ b = i2
    · rw [hc2.1, hc2.2]
      exact hkk
    · rw [if_neg hc2] at hab
      exact hB a b hab

/-- One graph call preserves symmetry and closedness. -/
theorem applyOp_preserves_SC (G : Graph) (op : GOp) (hS : Symm G) (hC : Closed G) :
    Symm (applyOp G op) ∧ Closed (applyOp G op) := by
  cases op with
  | addV i k => exact add_vertex_preserves_SC G i k hS hC
  | addE i1 i2 w => exact add_edge_preserves_SC G i1 i2 w hS hC

/-- One kind-safe graph call preserves bipartiteness. -/
theorem applyOp_preserves_B (G : Graph) (op : GOp) (hC : Closed G) (hB : Bipartite G)
    (hk : opKindSafe G op = true) : Bipartite (applyOp G op) := by
  cases op with
  | addV i k => exact add_vertex_preserves_B G i k hC hB
  | addE i1 i2 w => exact add_edge_preserves_B G i1 i2 w hB hk

/-- Every call sequence preserves symmetry and closedness. -/
theorem applyOps_preserves_SC : ∀ (ops : List GOp) (G : Graph), Symm G → Closed G →
    Symm (applyOps G ops) ∧ Closed (applyOps G ops)
  | [], _, hS, hC => ⟨hS, hC⟩
  | op :: rest, G, hS, hC => by
    have h := applyOp_preserves_SC G op hS hC
    simpa [applyOps, List.foldl_cons] using
      applyOps_preserves_SC rest (applyOp G op) h.1 h.2

/-- Every kind-safe call sequence preserves all three invariants. -/
theorem applyOps_preserves_SCB : ∀ (ops : List GOp) (G : Graph), Symm G → Closed G →
    Bipartite G → opsKindSafe G ops = true →
    Symm (applyOps G ops) ∧ Closed (applyOps G ops) ∧ Bipartite (applyOps G ops)
  | [], _, hS, hC, hB, _ => ⟨hS, hC, hB⟩
  | op :: rest, G, hS, hC, hB, hk => by
    unfold opsKindSafe at hk
    rw [Bool.and_eq_true] at hk
    have hsc := applyOp_preserves_SC G op hS hC
    have hb := applyOp_preserves_B G op hC hB hk.1
    simpa [applyOps, List.foldl_cons] using
      applyOps_preserves_SCB rest (applyOp G op) hsc.1 hsc.2 hb hk.2

/-- C5 counterexample: `add_user_game_edge` never checks kinds, so the call
sequence addV "a" game; addV "b" game; addE "a" "b" produces a graph with an
edge between two vertices of the SAME kind — the bipartite invariant does not
hold for every reachable graph. -/
theorem claim_C5_counterexample :
    edgeWeight (applyOps emptyGameGraph
      [.addV "a" "game", .addV "b" "game", .addE "a" "b" 1]) "a" "b" = some 1 ∧
    kindOf (applyOps emptyGameGraph
      [.addV "a" "game", .addV "b" "game", .addE "a" "b" 1]) "a" = some "game" ∧
    kindOf (applyOps emptyGameGraph
      [.addV "a" "game", .addV "b" "game", .addE "a" "b" 1]) "b" = some "game" := by
  decide

/-- C5 amended: every graph reachable from the empty `GameGraph` by `add_vertex`
and `add_user_game_edge` calls has symmetric edges (both directions updated
together with the same weight); the bipartite part holds only under the extra
condition that every effective edge insertion joins two vertices of differing
kinds (as `load_graph_from_filtered_data` does when user ids and game names do
not collide) — the method itself never checks kinds. -/
theorem claim_C5_amended : ∀ ops : List GOp,
    Symm (applyOps emptyGameGraph ops) ∧
    (opsKindSafe emptyGameGraph ops = true → Bipartite (applyOps emptyGameGraph ops)) := by
  intro ops
  have hS : Symm emptyGameGraph := fun _ _ => rfl
  have hC : Closed emptyGameGraph := by
    intro a v hv b hb
    cases hv
  have hB : Bipartite emptyGameGraph := by
    intro a b hab
    simp [edgeWeight, dget, emptyGameGraph] at hab
  exact ⟨(applyOps_preserves_SC ops emptyGameGraph hS hC).1,
         fun hk => (applyOps_preserves_SCB ops emptyGameGraph hS hC hB hk).2.2⟩

/-- C5 amended, witness: a kind-safe user–game sequence yields a bipartite
graph. -/
theorem claim_C5_amended_witness :
    Bipartite (applyOps emptyGameGraph
      [.addV "a" "game", .addV "u" "user", .addE "a" "u" 1]) :=
  (claim_C5_amended [.addV "a" "game", .addV "u" "user", .addE "a" "u" 1]).2 (by decide)

/-- The outer loop of `GameGraph.recommend_games` is the abstract double fold
at the ungated candidate test. -/
theorem accUserNoGate_eq_accStepP (G : Graph) (liked : String) :
    accUserNoGate G liked =
      fun acc u => (adjOf G u).foldl (accStepP (candOKNoGate G liked)) acc := rfl

/-- Folding the inner loop with pointwise-equal candidate tests gives equal
results. -/
theorem foldl_accStepP_congr (P Q : String → Bool) :
    ∀ (l : List (String × ℚ)), (∀ gw ∈ l, P gw.1 = Q gw.1) →
    ∀ acc, l.foldl (accStepP P) acc = l.foldl (accStepP Q) acc := by
  intro l
  induction l with
  | nil => intro _ acc; rfl
  | cons hd tl ih =>
    intro h acc
    simp only [List.foldl_cons]
    have hhd : accStepP P acc hd = accStepP Q acc hd := by
      unfold accStepP
      rw [h hd (List.mem_cons_self hd tl)]
    rw [hhd]
    exact ih (fun gw hgw => h gw (List.mem_cons_of_mem hd hgw)) _

/-- Folding the outer loop with candidate tests that agree on every
encountered neighbour gives equal results. -/
theorem foldl_accUserP_congr (G : Graph) (P Q : String → Bool) :
    ∀ (users : List String), (∀ u ∈ users, ∀ gw ∈ adjOf G u, P gw.1 = Q gw.1) →
    ∀ acc, users.foldl (fun a u => (adjOf G u).foldl (accStepP P) a) acc =
      users.foldl (fun a u => (adjOf G u).foldl (accStepP Q) a) acc := by
  intro users
  induction users with
  | nil => intro _ acc; rfl
  | cons u rest ih =>
    intro h acc
    simp only [List.foldl_cons]
    rw [foldl_accStepP_congr P Q (adjOf G u) (h u (List.mem_cons_self u rest)) acc]
    exact ih (fun x hx => h x (List.mem_cons_of_mem u hx)) _

/-- Inserting into a list scaled by a positive factor is the scaled insertion. -/
theorem insertDesc_scale (c : ℚ) (hc : 0 < c) (x : String × ℚ) :
    ∀ l : List (String × ℚ),
      insertDesc (x.1, x.2 * c) (l.map (fun p => (p.1, p.2 * c))) =
        (insertDesc x l).map (fun p => (p.1, p.2 * c)) := by
  intro l
  induction l with
  | nil => rfl
  | cons y ys ih =>
    by_cases h : y.2 ≤ x.2
    · have h' : y.2 * c ≤ x.2 * c := by
        exact mul_le_mul_of_nonneg_right h (le_of_lt hc)
      simp [insertDesc, h, h']
    · have h' : ¬ y.2 * c ≤ x.2 * c := by
        intro hh
        exact h (le_of_mul_le_mul_right hh hc)
      simp [insertDesc, h, h', ih]

/-- Sorting commutes with scaling every score by a positive factor (the same
comparisons are made, so the stable order is identical). -/
theorem sortDesc_scale (c : ℚ) (hc : 0 < c) :
    ∀ l : List (String × ℚ),
      sortDesc (l.map (fun p => (p.1, p.2 * c))) =
        (sortDesc l).map (fun p => (p.1, p.2 * c)) := by
  intro l
  induction l with
  | nil => rfl
  | cons x xs ih =>
    simp only [List.map_cons, sortDesc]
    rw [ih]
    exact insertDesc_scale c hc x (sortDesc xs)

/-- C10: with a positive boost factor, a liked game of kind game with a
nonempty category list, and every candidate reachable through its neighbour
users passing the relevance gate (sharing a category with the liked game), the
ranked list of `genre_aware_recommend` equals the ranked list of the tree-free
`GameGraph.recommend_games` at the same `top_k` — the uniform positive boost
does not change the order. -/
theorem claim_C10 : ∀ (lg : ℚ → ℚ) (liked : String) (k : Int) (tree : PTree)
    (G : Graph) (boost : ℚ),
    0 < boost →
    kindOf G liked = some "game" →
    PTree.get_genres tree liked ≠ [] →
    (∀ u ∈ usersOf G liked, ∀ gw ∈ adjOf G u,
      kindOf G gw.1 = some "game" → gw.1 ≠ liked →
      intersects (PTree.get_genres tree liked)
        (dgetD gw.1 [] (computeGenreMap tree)) = true) →
    rankedOf (genre_aware_recommend lg liked k (some tree) (some G) boost) =
      recommend_games lg G liked k := by
  intro lg liked k tree G boost hb hk hg hgate
  have hpt : ∀ u ∈ usersOf G liked, ∀ gw ∈ adjOf G u,
      candOK G liked (computeGenreMap tree) (PTree.get_genres tree liked) gw.1 =
        candOKNoGate G liked gw.1 := by
    intro u hu gw hgw
    by_cases hng : candOKNoGate G liked gw.1 = true
    · have hparts : (kindOf G gw.1 == some "game") = true ∧ (!(gw.1 == liked)) = true := by
        have hh := hng
        unfold candOKNoGate at hh
        rw [Bool.and_eq_true] at hh
        exact hh
      have hkind : kindOf G gw.1 = some "game" := by
        have := hparts.1
        simpa using this
      have hne : gw.1 ≠ liked := by
        have := hparts.2
        simpa using this
      have hinter := hgate u hu gw hgw hkind hne
      show (candOKNoGate G liked gw.1 && intersects (PTree.get_genres tree liked)
        (dgetD gw.1 [] (computeGenreMap tree))) = candOKNoGate G liked gw.1
      rw [hng, hinter]
      rfl
    · have hf : candOKNoGate G liked gw.1 = false := by
        revert hng
        cases candOKNoGate G liked gw.1 <;> simp
      show (candOKNoGate G liked gw.1 && intersects (PTree.get_genres tree liked)
        (dgetD gw.1 [] (computeGenreMap tree))) = candOKNoGate G liked gw.1
      rw [hf]
      simp
  rw [gar_main lg liked k tree G boost hk hg]
  show (normalize_and_rank_scores lg
      ((usersOf G liked).foldl
        (accUser G liked (computeGenreMap tree) (PTree.get_genres tree liked)) ([], [])).1
      ((usersOf G liked).foldl
        (accUser G liked (computeGenreMap tree) (PTree.get_genres tree liked)) ([], [])).2
      boost k).1 = recommend_games lg G liked k
  have hfold : (usersOf G liked).foldl
      (accUser G liked (computeGenreMap tree) (PTree.get_genres tree liked)) ([], []) =
      (usersOf G liked).foldl (accUserNoGate G liked) ([], []) := by
    rw [accUser_eq_accStepP, accUserNoGate_eq_accStepP]
    exact foldl_accUserP_congr G _ _ (usersOf G liked) hpt ([], [])
  rw [hfold]
  unfold recommend_games
  rw [if_neg (by rw [hk]; simp)]
  set F := (usersOf G liked).foldl (accUserNoGate G liked) ([], [])
  show (pyTake k (sortDesc (F.1.map (fun p =>
      (p.1, p.2 / lg (1 + (dgetD p.1 0 F.2 : Nat)) * boost))))).map Prod.fst =
    (pyTake k (sortDesc (F.1.map (fun p =>
      (p.1, p.2 / lg (1 + (dgetD p.1 0 F.2 : Nat))))))).map Prod.fst
  have hmm : F.1.map (fun p => (p.1, p.2 / lg (1 + (dgetD p.1 0 F.2 : Nat)) * boost)) =
      (F.1.map (fun p => (p.1, p.2 / lg (1 + (dgetD p.1 0 F.2 : Nat))))).map
        (fun p => (p.1, p.2 * boost)) := by
    rw [List.map_map]
    rfl
  rw [hmm, sortDesc_scale boost hb, pyTake_map, List.map_map]
  rfl

/-- C10, witness: in `exG`/`exT` every reachable candidate ("Beta") shares a
category with "Alpha", and both recommenders rank the same list. -/
theorem claim_C10_witness :
    rankedOf (genre_aware_recommend (fun _ => 1) "Alpha" 5 (some exT) (some exG) 2) =
      recommend_games (fun _ => 1) exG "Alpha" 5 :=
  claim_C10 (fun _ => 1) "Alpha" 5 exT exG 2 (by norm_num) (by decide) (by decide)
    (by decide)
